import Mathlib

/-!
Verification of the DPP event dispatch core (src/include/dpp/dispatcher.h).

The only executable code under src is the generic invocation routine
`call_event` (dispatcher.h lines 94-100): a `std::for_each` over the listener
chain that checks `event.is_cancelled()` before invoking each listener.  The
bodies of `event_dispatch_t::cancel_event`, `event_dispatch_t::is_cancelled`,
the event constructor, and the `get_parameter` overrides live in a translation
unit that is not part of the given sources; those parts are modelled from the
spec (and the header's own doc comments), as marked on each definition.

A listener is arbitrary client code receiving a `const` reference to the event;
its only way to affect the dispatch is to call `cancel_event` on the per
dispatch cancellation context.  We therefore abstract a listener by an
identifier and by whether its body calls `cancel_event` during its invocation,
and we record every actual invocation (listener identifier paired with the
event object passed) in a trace.
-/

namespace DPP

/-- Envelope shared by every event payload (`event_dispatch_t`, dispatcher.h
lines 47-84): the raw event data and the originating shard.  The
`discord_client*` pointer, nullable for voice events, is modelled as an
optional client identifier. -/
structure Event where
  raw_event : String
  from_ : Option Nat
deriving DecidableEq

/-- A listener registration, abstracted by its observable effect on the
dispatch: `id` identifies the registration (its position-independent identity),
`cancels` says whether the listener's body calls `cancel_event` during its
invocation.  A listener receives the event by `const` reference, so calling
`cancel_event` on the per dispatch context is its only effect on the dispatch
core. -/
structure Listener where
  id : Nat
  cancels : Bool
deriving DecidableEq

/-- Modelled from the spec: the body of `event_dispatch_t::cancel_event` is not
under src.  Per the header contract (dispatcher.h lines 69-75) and spec section
4.1, it sets the per dispatch cancellation flag to `true`. -/
def cancel_event (_s : Bool) : Bool :=
  true

/-- Modelled from the spec: the body of `event_dispatch_t::is_cancelled` is not
under src.  Per the header contract (dispatcher.h lines 77-83) and spec section
4.1, it reads the per dispatch cancellation flag. -/
def is_cancelled (s : Bool) : Bool :=
  s

/-- Effect of invoking one listener on the cancellation context: a listener
whose body calls `cancel_event` (any positive number of times) leaves the flag
set; any other listener leaves the flag untouched, since `cancel_event` is the
only mutator reachable from a listener. -/
def invoke (l : Listener) (s : Bool) : Bool :=
  if l.cancels then cancel_event s else s

/-- Shallow embedding of `call_event` (dispatcher.h lines 94-100):
`std::for_each` over the whole chain; at each element the guard
`!event.is_cancelled()` is checked and, when it passes, the listener is invoked
with the event.  The result is the invocation trace (listener id paired with
the event object passed to it, in invocation order) together with the final
cancellation state.  Note the loop does not break on cancellation: it iterates
all elements and merely skips the invocations. -/
def call_event (vec : List Listener) (e : Event) (s : Bool) :
    List (Nat × Event) × Bool :=
  match vec with
  | [] => ([], s)
  | l :: ls =>
    if is_cancelled s then call_event ls e s
    else
      let r := call_event ls e (invoke l s)
      ((l.id, e) :: r.1, r.2)

/-- Modelled from the spec: the fresh cancellation context the Dispatch Engine
establishes at dispatch entry (spec section 4.2: "create a fresh Cancellation
Context"; default `false` per section 3). -/
def fresh_ctx : Bool :=
  false

/-- Modelled from the spec: the Dispatch Engine (spec section 4.2).  The code
that manages the per execution context flag is not under src; per the spec, a
dispatch establishes a fresh cancellation context regardless of whatever flag
value `_prev` earlier activity on the same execution context left behind, runs
`call_event`, and discards the context at exit.  The first component is the
`is_cancelled` observation made at the start of the dispatch; the second is the
`call_event` result (trace and final, discarded flag). -/
def dispatch (chain : List Listener) (e : Event) (_prev : Bool) :
    Bool × (List (Nat × Event) × Bool) :=
  (is_cancelled fresh_ctx, call_event chain e fresh_ctx)

/-- Small step machine view of the `call_event` loop, used to state frame
properties (the chain and the event object are data the loop only reads).
`idx` is the position of the `std::for_each` iterator; `trace` records the
invocations made so far. -/
structure DState where
  chain : List Listener
  event : Event
  idx : Nat
  ctx : Bool
  trace : List (Nat × Event)
deriving DecidableEq

/-- One iteration of the `call_event` loop body (dispatcher.h lines 95-99): if
the iterator is past the end nothing happens; otherwise the guard
`!event.is_cancelled()` is checked and the current listener is invoked exactly
when it passes, after which the iterator advances. -/
def dstep (st : DState) : DState :=
  match st.chain[st.idx]? with
  | none => st
  | some l =>
    if is_cancelled st.ctx then { st with idx := st.idx + 1 }
    else { st with
            idx := st.idx + 1
            ctx := invoke l st.ctx
            trace := st.trace ++ [(l.id, st.event)] }

/-- State of the loop at entry of `call_event`: iterator at the start, no
invocation made yet. -/
def startState (chain : List Listener) (e : Event) (s : Bool) : DState :=
  ⟨chain, e, 0, s, []⟩

/-- Two dispatches running concurrently, each owning its own machine state
(spec sections 4.1 and 5: the cancellation context is per dispatch and per
execution context, never shared).  A schedule entry `true` runs one loop
iteration of the first dispatch, `false` one of the second. -/
def run2 (sch : List Bool) (p : DState × DState) : DState × DState :=
  match sch with
  | [] => p
  | c :: rest => run2 rest (if c then (dstep p.1, p.2) else (p.1, dstep p.2))

/-- Modelled from the spec: the tagged union returned by `get_parameter` (spec
section 4.4), `command_value` in the source.  The payload of each variant is
irrelevant to the claims; references are modelled as identifiers and the
numeric variant as an integer pair (mantissa view). -/
inductive command_value where
  | absent : command_value
  | str : String → command_value
  | int : Int → command_value
  | boolean : Bool → command_value
  | user : Nat → command_value
  | channel : Nat → command_value
  | role : Nat → command_value
  | numeric : Int → command_value
  | attachment : Nat → command_value
deriving DecidableEq

/-- Modelled from the spec: one decoded command option of an interaction, a
name bound to a `command_value`. -/
structure command_option where
  name : String
  value : command_value
deriving DecidableEq

/-- Modelled from the spec: the decoded interaction carried by an
`interaction_create_t` payload (field `command`, dispatcher.h line 351),
reduced to its decoded command-option list, the only part `get_parameter`
consults. -/
structure interaction where
  options : List command_option
deriving DecidableEq

/-- Modelled from the spec: the body of `interaction_create_t::get_parameter`
is not under src.  Per spec section 4.4 (and the header doc, dispatcher.h lines
339-346), the base resolves the name against the decoded command-option list
and returns the empty (absent) `command_value` if no option with that name
exists. -/
def interaction_create_get_parameter (cmd : interaction) (nm : String) :
    command_value :=
  match cmd.options.find? (fun o => o.name == nm) with
  | some o => o.value
  | none => command_value.absent

/-- Modelled from the spec: the body of `button_click_t::get_parameter` is not
under src.  Per its header doc (dispatcher.h lines 365-371, "Always returns an
empty parameter as buttons dont have parameters!") and spec section 4.4, it
ignores both the underlying interaction and the name. -/
def button_click_get_parameter (_cmd : interaction) (_nm : String) :
    command_value :=
  command_value.absent

/-- Modelled from the spec: the body of `select_click_t::get_parameter` is not
under src.  Per its header doc (dispatcher.h lines 429-435) and spec section
4.4, it always returns the empty parameter. -/
def select_click_get_parameter (_cmd : interaction) (_nm : String) :
    command_value :=
  command_value.absent

/-- Modelled from the spec: the body of `autocomplete_t::get_parameter` is not
under src.  Per its header doc (dispatcher.h lines 393-399) and spec section
4.4, it always returns the empty parameter. -/
def autocomplete_get_parameter (_cmd : interaction) (_nm : String) :
    command_value :=
  command_value.absent

/-- Operations the dispatch core offers on a payload during dispatch: the
cancellation call and the cancellation query (dispatcher.h lines 69-83).  Used
to state that no such operation mutates the envelope. -/
inductive payload_op where
  | cancel : payload_op
  | query : payload_op
deriving DecidableEq

/-- Effect of one payload operation on the pair (event object, cancellation
context): `cancel` routes to `cancel_event` on the context; `query` reads the
flag through `is_cancelled` and leaves the state as read. -/
def apply_op (op : payload_op) (st : Event × Bool) : Event × Bool :=
  match op with
  | payload_op.cancel => (st.1, cancel_event st.2)
  | payload_op.query => (st.1, is_cancelled st.2)

/-- Effect of a whole sequence of payload operations, applied left to right. -/
def apply_ops (ops : List payload_op) (st : Event × Bool) : Event × Bool :=
  ops.foldl (fun acc op => apply_op op acc) st

/-! ### Basic lemmas about the dispatch loop -/

/-- Once the cancellation flag is set, every remaining guard check sees `true`,
so no further listener is invoked and the flag stays set. -/
lemma call_event_cancelled (vec : List Listener) (e : Event) :
    call_event vec e true = ([], true) := by
  induction vec with
  | nil => rfl
  | cons l ls ih => simpa [call_event, is_cancelled] using ih

/-- Invoking a non-cancelling listener leaves the flag untouched. -/
lemma invoke_of_not_cancels {l : Listener} (h : l.cancels = false) (s : Bool) :
    invoke l s = s := by
  simp [invoke, h]

/-- Invoking a cancelling listener sets the flag. -/
lemma invoke_of_cancels {l : Listener} (h : l.cancels = true) (s : Bool) :
    invoke l s = true := by
  simp [invoke, h, cancel_event]

/-- A chain with no cancelling listener is traversed completely: every listener
is invoked once, in order, and the flag stays clear. -/
lemma call_event_no_cancel (chain : List Listener) (e : Event)
    (h : ∀ l ∈ chain, l.cancels = false) :
    call_event chain e false = (chain.map (fun l => (l.id, e)), false) := by
  induction chain with
  | nil => rfl
  | cons l ls ih =>
    have hl : l.cancels = false := h l (List.mem_cons_self l ls)
    have hrest : ∀ l2 ∈ ls, l2.cancels = false :=
      fun l2 hm => h l2 (List.mem_cons_of_mem l hm)
    simp [call_event, is_cancelled, invoke_of_not_cancels hl,
      ih hrest]

/-! ### Claims about the invocation algorithm -/

/-- C1: if the listener at 0-indexed position k (here: after the prefix `pre`
of non-cancelling listeners, so k = `pre.length`) calls `cancel_event` during
its invocation and no earlier listener cancels, then `call_event` invokes
exactly the listeners at positions 0 through k, each once and in order, and
never invokes the listeners after position k. -/
theorem c1_cancel_stops_tail (pre post : List Listener) (c : Listener)
    (e : Event) (hpre : ∀ l ∈ pre, l.cancels = false)
    (hc : c.cancels = true) :
    (call_event (pre ++ c :: post) e false).1 =
      (pre ++ [c]).map (fun l => (l.id, e)) := by
  induction pre with
  | nil =>
    simp [call_event, is_cancelled, invoke_of_cancels hc,
      call_event_cancelled]
  | cons p pre ih =>
    have hp : p.cancels = false := hpre p (List.mem_cons_self p pre)
    have hrest : ∀ l ∈ pre, l.cancels = false :=
      fun l hm => hpre l (List.mem_cons_of_mem p hm)
    simp [call_event, is_cancelled, invoke_of_not_cancels hp, ih hrest]

/-- Witness for C1 at a concrete chain: listener 0 does not cancel, listener 1
cancels, listener 2 comes after; exactly listeners 0 and 1 are invoked. -/
theorem c1_cancel_stops_tail_witness :
    (call_event (([⟨0, false⟩] : List Listener) ++
          ((⟨1, true⟩ : Listener) :: ([⟨2, false⟩] : List Listener)))
        ⟨"raw", none⟩ false).1 =
      (([⟨0, false⟩] : List Listener) ++ ([⟨1, true⟩] : List Listener)).map
        (fun l => (l.id, (⟨"raw", none⟩ : Event))) :=
  c1_cancel_stops_tail [⟨0, false⟩] [⟨2, false⟩] ⟨1, true⟩ ⟨"raw", none⟩
    (by decide) rfl

/-- C2: on a chain in which no listener cancels, `call_event` invokes every
listener exactly once, in registration order (the trace is exactly the chain,
in order). -/
theorem c2_all_invoked_in_order (chain : List Listener) (e : Event)
    (h : ∀ l ∈ chain, l.cancels = false) :
    (call_event chain e false).1 = chain.map (fun l => (l.id, e)) := by
  rw [call_event_no_cancel chain e h]

/-- Witness for C2 at a concrete two-listener chain with no canceller: both
listeners appear in the trace, in order. -/
theorem c2_all_invoked_in_order_witness :
    (call_event ([⟨0, false⟩, ⟨1, false⟩] : List Listener)
        ⟨"raw", none⟩ false).1 =
      ([⟨0, false⟩, ⟨1, false⟩] : List Listener).map
        (fun l => (l.id, (⟨"raw", none⟩ : Event))) :=
  c2_all_invoked_in_order [⟨0, false⟩, ⟨1, false⟩] ⟨"raw", none⟩ (by decide)

/-- C7: dispatching with an empty listener chain is a no-op and not an error:
`call_event` on the empty chain invokes nothing and returns (it is a total
function), whatever the incoming cancellation state; via the dispatch engine
the observation at entry is clear and the trace is empty. -/
theorem c7_empty_chain_noop (e : Event) (s prev : Bool) :
    call_event ([] : List Listener) e s = ([], s) ∧
      dispatch ([] : List Listener) e prev = (false, ([], false)) := by
  exact ⟨rfl, rfl⟩

/-! ### Claims about the cancellation context -/

/-- Iterating `cancel_event` from a set flag keeps it set. -/
lemma cancel_event_iterate_true (m : Nat) :
    cancel_event^[m] true = true := by
  induction m with
  | zero => rfl
  | succ m ih => rw [Function.iterate_succ_apply, cancel_event, ih]

/-- C4: `cancel_event` is idempotent within one dispatch: calling it n times
(n at least 1) leaves the flag exactly as one call does, `is_cancelled`
reports `true` from the first call on, and every observation point after the
first call inside the same dispatch sees `true` (so the remaining loop of
`call_event` invokes nothing and the flag stays set). -/
theorem c4_cancel_idempotent (n : Nat) (s : Bool) (h : 1 ≤ n) :
    cancel_event^[n] s = cancel_event s ∧
      is_cancelled (cancel_event^[n] s) = true ∧
      ∀ (chain : List Listener) (e : Event),
        call_event chain e (cancel_event^[n] s) = ([], true) := by
  obtain ⟨m, rfl⟩ : ∃ m, n = m + 1 := ⟨n - 1, (Nat.succ_pred_eq_of_pos h).symm⟩
  have hiter : cancel_event^[m + 1] s = true := by
    rw [Function.iterate_succ_apply, cancel_event, cancel_event_iterate_true]
  refine ⟨?_, ?_, ?_⟩
  · rw [hiter]; rfl
  · rw [hiter]; rfl
  · intro chain e
    rw [hiter]
    exact call_event_cancelled chain e

/-- Witness for C4 at n = 3 calls starting from a clear flag, with a concrete
one-listener chain for the observation conjunct. -/
theorem c4_cancel_idempotent_witness :
    cancel_event^[3] false = cancel_event false ∧
      is_cancelled (cancel_event^[3] false) = true ∧
      call_event ([⟨0, false⟩] : List Listener) ⟨"raw", none⟩
        (cancel_event^[3] false) = ([], true) :=
  ⟨(c4_cancel_idempotent 3 false (by decide)).1,
   (c4_cancel_idempotent 3 false (by decide)).2.1,
   (c4_cancel_idempotent 3 false (by decide)).2.2 [⟨0, false⟩] ⟨"raw", none⟩⟩

/-- C3: every dispatch begins with a fresh cancellation state.  If dispatch A
ends cancelled (some listener of A cancelled), the flag A leaves behind on the
execution context is ignored by the next dispatch B: the `is_cancelled`
observation at the start of B is `false`, and B's whole outcome is the same as
a dispatch of B from a pristine execution context. -/
theorem c3_no_cancellation_leak (A B : List Listener) (eA eB : Event)
    (hA : (dispatch A eA false).2.2 = true) :
    (dispatch B eB ((dispatch A eA false).2.2)).1 = false ∧
      dispatch B eB ((dispatch A eA false).2.2) = dispatch B eB false := by
  exact ⟨rfl, rfl⟩

/-- Witness for C3: dispatch A of a single cancelling listener, then dispatch
B of a non-cancelling listener; B starts uncancelled and runs as if alone. -/
theorem c3_no_cancellation_leak_witness :
    (dispatch ([⟨1, false⟩] : List Listener) ⟨"b", none⟩
        ((dispatch ([⟨0, true⟩] : List Listener) ⟨"a", none⟩ false).2.2)).1 =
        false ∧
      dispatch ([⟨1, false⟩] : List Listener) ⟨"b", none⟩
          ((dispatch ([⟨0, true⟩] : List Listener) ⟨"a", none⟩ false).2.2) =
        dispatch ([⟨1, false⟩] : List Listener) ⟨"b", none⟩ false :=
  c3_no_cancellation_leak [⟨0, true⟩] [⟨1, false⟩] ⟨"a", none⟩ ⟨"b", none⟩
    (by decide)

/-! ### Claims about the interaction family's parameter lookup -/

/-- C5: the button-click, select-click and autocomplete overrides of
`get_parameter` return the absent value for every name and every underlying
interaction, however constructed. -/
theorem c5_overrides_always_absent (cmd : interaction) (nm : String) :
    button_click_get_parameter cmd nm = command_value.absent ∧
      select_click_get_parameter cmd nm = command_value.absent ∧
      autocomplete_get_parameter cmd nm = command_value.absent := by
  exact ⟨rfl, rfl, rfl⟩

/-- C8, counterexample: a decoded option may itself carry the absent value
(the tagged union of spec section 4.4 contains `absent`), so the base
`get_parameter` can return absent even though an option with the requested
name exists — refuting "returns absent exactly when no option with that name
exists". -/
theorem c8_counterexample :
    interaction_create_get_parameter ⟨[⟨"x", command_value.absent⟩]⟩ "x" =
        command_value.absent ∧
      ∃ o ∈ (⟨[⟨"x", command_value.absent⟩]⟩ : interaction).options,
        o.name = "x" := by
  decide

/-- C8, amended: the base `get_parameter` returns the value of the first
decoded option whose name matches, and absent when no option matches; when
every decoded option carries a non-absent value, the result is absent exactly
when no option with that name exists. -/
theorem c8_base_resolves_options (cmd : interaction) (nm : String) :
    ((∀ o ∈ cmd.options, o.name ≠ nm) →
        interaction_create_get_parameter cmd nm = command_value.absent) ∧
      (∀ o, cmd.options.find? (fun x => x.name == nm) = some o →
        interaction_create_get_parameter cmd nm = o.value) ∧
      ((∀ o ∈ cmd.options, o.value ≠ command_value.absent) →
        (interaction_create_get_parameter cmd nm = command_value.absent ↔
          ∀ o ∈ cmd.options, o.name ≠ nm)) := by
  refine ⟨?_, ?_, ?_⟩
  · intro h
    have hnone : cmd.options.find? (fun o => o.name == nm) = none := by
      rw [List.find?_eq_none]
      intro x hx
      simpa using h x hx
    simp [interaction_create_get_parameter, hnone]
  · intro o ho
    simp [interaction_create_get_parameter, ho]
  · intro hv
    constructor
    · intro habs o ho hname
      cases hfind : cmd.options.find? (fun x => x.name == nm) with
      | none =>
        rw [List.find?_eq_none] at hfind
        exact hfind o ho (by simp [hname])
      | some o2 =>
        have hmem : o2 ∈ cmd.options := List.mem_of_find?_eq_some hfind
        have hval : interaction_create_get_parameter cmd nm = o2.value := by
          simp [interaction_create_get_parameter, hfind]
        exact hv o2 hmem (by rw [← hval]; exact habs)
    · intro h
      have hnone : cmd.options.find? (fun o => o.name == nm) = none := by
        rw [List.find?_eq_none]
        intro x hx
        simpa using h x hx
      simp [interaction_create_get_parameter, hnone]

/-- Witness for the amended C8 on a concrete interaction with one option
named "a": a miss yields absent, a hit yields the stored value, and the
absent-iff-no-option equivalence holds since the stored value is non-absent. -/
theorem c8_base_resolves_options_witness :
    interaction_create_get_parameter ⟨[⟨"a", command_value.str "v"⟩]⟩ "b" =
        command_value.absent ∧
      interaction_create_get_parameter ⟨[⟨"a", command_value.str "v"⟩]⟩ "a" =
        command_value.str "v" ∧
      (interaction_create_get_parameter ⟨[⟨"a", command_value.str "v"⟩]⟩ "a" =
          command_value.absent ↔
        ∀ o ∈ (⟨[⟨"a", command_value.str "v"⟩]⟩ : interaction).options,
          o.name ≠ "a") :=
  ⟨(c8_base_resolves_options ⟨[⟨"a", command_value.str "v"⟩]⟩ "b").1
      (by decide),
   (c8_base_resolves_options ⟨[⟨"a", command_value.str "v"⟩]⟩ "a").2.1
      ⟨"a", command_value.str "v"⟩ (by decide),
   (c8_base_resolves_options ⟨[⟨"a", command_value.str "v"⟩]⟩ "a").2.2
      (by decide)⟩

/-! ### Lemmas about the loop machine -/

/-- One loop iteration leaves the chain untouched. -/
lemma dstep_chain_eq (st : DState) : (dstep st).chain = st.chain := by
  unfold dstep
  split
  · rfl
  · split <;> rfl

/-- One loop iteration leaves the event object untouched. -/
lemma dstep_event_eq (st : DState) : (dstep st).event = st.event := by
  unfold dstep
  split
  · rfl
  · split <;> rfl

/-- Any number of loop iterations leaves the chain untouched. -/
lemma dstep_iterate_chain (n : Nat) (st : DState) :
    (dstep^[n] st).chain = st.chain := by
  induction n generalizing st with
  | zero => rfl
  | succ n ih => rw [Function.iterate_succ_apply, ih, dstep_chain_eq]

/-- Any number of loop iterations leaves the event object untouched. -/
lemma dstep_iterate_event (n : Nat) (st : DState) :
    (dstep^[n] st).event = st.event := by
  induction n generalizing st with
  | zero => rfl
  | succ n ih => rw [Function.iterate_succ_apply, ih, dstep_event_eq]

/-- Each trace entry added by one loop iteration carries the state's event. -/
lemma dstep_trace_mem (st : DState) (p : Nat × Event)
    (h : p ∈ (dstep st).trace) : p ∈ st.trace ∨ p.2 = st.event := by
  unfold dstep at h
  split at h
  · exact Or.inl h
  · split at h
    · exact Or.inl h
    · rcases List.mem_append.mp h with h1 | h2
      · exact Or.inl h1
      · right
        have : p = (_, st.event) := List.mem_singleton.mp h2
        rw [this]

/-- Each trace entry added by any number of loop iterations carries the
state's event. -/
lemma dstep_iterate_trace_mem (n : Nat) (st : DState) (p : Nat × Event)
    (h : p ∈ (dstep^[n] st).trace) : p ∈ st.trace ∨ p.2 = st.event := by
  induction n generalizing st with
  | zero => exact Or.inl h
  | succ n ih =>
    rw [Function.iterate_succ_apply] at h
    rcases ih (dstep st) h with h1 | h2
    · exact dstep_trace_mem st p h1
    · right
      rw [h2, dstep_event_eq]

/-- Running the loop machine from position k through the remaining suffix of
the chain computes exactly what `call_event` computes on that suffix. -/
lemma dstep_run (rest : List Listener) :
    ∀ (chain : List Listener) (k : Nat) (e : Event) (s : Bool)
      (tr : List (Nat × Event)), chain.drop k = rest →
      dstep^[rest.length] (⟨chain, e, k, s, tr⟩ : DState) =
        ⟨chain, e, k + rest.length, (call_event rest e s).2,
          tr ++ (call_event rest e s).1⟩ := by
  induction rest with
  | nil =>
    intro chain k e s tr h
    simp [call_event]
  | cons r rest ih =>
    intro chain k e s tr h
    have hk : chain[k]? = some r := by
      have h0 : (chain.drop k)[0]? = some r := by rw [h]; simp
      rw [List.getElem?_drop] at h0
      simpa using h0
    have hdrop : chain.drop (k + 1) = rest := by
      have h1 : (chain.drop k).drop 1 = rest := by rw [h]; simp
      rwa [List.drop_drop] at h1
    simp only [List.length_cons]
    rw [Function.iterate_succ_apply]
    cases s with
    | true =>
      have hstep : dstep (⟨chain, e, k, true, tr⟩ : DState) =
          ⟨chain, e, k + 1, true, tr⟩ := by
        simp [dstep, hk, is_cancelled]
      rw [hstep, ih chain (k + 1) e true tr hdrop]
      simp [call_event, is_cancelled, call_event_cancelled]
      omega
    | false =>
      have hstep : dstep (⟨chain, e, k, false, tr⟩ : DState) =
          ⟨chain, e, k + 1, invoke r false, tr ++ [(r.id, e)]⟩ := by
        simp [dstep, hk, is_cancelled]
      rw [hstep, ih chain (k + 1) e (invoke r false) (tr ++ [(r.id, e)]) hdrop]
      simp [call_event, is_cancelled]
      omega

/-- Running the loop machine over the whole chain from the start state yields
exactly the `call_event` trace and final flag, with the chain and event
unchanged. -/
lemma machine_runs_call_event (chain : List Listener) (e : Event) (s : Bool) :
    dstep^[chain.length] (startState chain e s) =
      ⟨chain, e, chain.length, (call_event chain e s).2,
        (call_event chain e s).1⟩ := by
  have h := dstep_run chain chain 0 e s [] (by simp)
  simpa [startState] using h

/-! ### Frame and concurrency claims -/

/-- C10: `call_event` never modifies the listener chain: after any number of
iterations of its loop, the chain (length, elements, order) and the event
object are exactly the initial ones, every listener invocation recorded in the
trace received the same single event object, and the trace of a full run is
the `call_event` trace. -/
theorem c10_chain_unmodified (chain : List Listener) (e : Event) (s : Bool)
    (n : Nat) :
    (dstep^[n] (startState chain e s)).chain = chain ∧
      (dstep^[n] (startState chain e s)).event = e ∧
      (∀ p ∈ (dstep^[n] (startState chain e s)).trace, p.2 = e) ∧
      (dstep^[chain.length] (startState chain e s)).trace =
        (call_event chain e s).1 := by
  refine ⟨dstep_iterate_chain n _, dstep_iterate_event n _, ?_, ?_⟩
  · intro p hp
    rcases dstep_iterate_trace_mem n (startState chain e s) p hp with h1 | h2
    · simp [startState] at h1
    · exact h2
  · rw [machine_runs_call_event]

/-- Witness for C10 on a one-listener chain run for one step: the recorded
invocation carries the original event and the chain is unchanged. -/
theorem c10_chain_unmodified_witness :
    ((5 : Nat), (⟨"raw", none⟩ : Event)).2 = (⟨"raw", none⟩ : Event) ∧
      (dstep^[1] (startState ([⟨5, false⟩] : List Listener)
          ⟨"raw", none⟩ false)).chain = ([⟨5, false⟩] : List Listener) :=
  ⟨(c10_chain_unmodified [⟨5, false⟩] ⟨"raw", none⟩ false 1).2.2.1
      (5, ⟨"raw", none⟩) (by decide),
   (c10_chain_unmodified [⟨5, false⟩] ⟨"raw", none⟩ false 1).1⟩

/-- C6: two dispatches running concurrently, each owning its own cancellation
context and loop state, never observe each other: under every interleaving
schedule, each dispatch's entire outcome — including every `is_cancelled`
observation — equals the outcome of running it alone for the same number of
steps, so a `cancel_event` performed by one dispatch has no effect on the
other. -/
theorem c6_concurrent_dispatch_independent (sch : List Bool) (a b : DState) :
    run2 sch (a, b) = (dstep^[sch.count true] a, dstep^[sch.count false] b) ∧
      is_cancelled (run2 sch (a, b)).1.ctx =
        is_cancelled (dstep^[sch.count true] a).ctx ∧
      is_cancelled (run2 sch (a, b)).2.ctx =
        is_cancelled (dstep^[sch.count false] b).ctx := by
  have main : ∀ (sch : List Bool) (a b : DState),
      run2 sch (a, b) =
        (dstep^[sch.count true] a, dstep^[sch.count false] b) := by
    intro sch
    induction sch with
    | nil => intro a b; simp [run2]
    | cons c rest ih =>
      intro a b
      cases c with
      | true =>
        have h1 : run2 (true :: rest) (a, b) = run2 rest (dstep a, b) := rfl
        have ht : (true :: rest).count true = rest.count true + 1 := by simp
        have hf : (true :: rest).count false = rest.count false := by simp
        rw [h1, ih (dstep a) b, ht, hf, Function.iterate_succ_apply]
      | false =>
        have h1 : run2 (false :: rest) (a, b) = run2 rest (a, dstep b) := rfl
        have ht : (false :: rest).count true = rest.count true := by simp
        have hf : (false :: rest).count false = rest.count false + 1 := by simp
        rw [h1, ih a (dstep b), ht, hf, Function.iterate_succ_apply]
  refine ⟨main sch a b, ?_, ?_⟩
  · rw [main sch a b]
  · rw [main sch a b]

/-- C9: the envelope fields are never mutated by the dispatch core: any
sequence of payload operations (`cancel_event` calls and `is_cancelled`
queries) leaves `raw_event` and `from` unchanged, and so does any number of
iterations of the `call_event` loop. -/
theorem c9_envelope_never_mutated (ops : List payload_op) (e : Event)
    (s : Bool) (n : Nat) (st : DState) :
    (apply_ops ops (e, s)).1.raw_event = e.raw_event ∧
      (apply_ops ops (e, s)).1.from_ = e.from_ ∧
      (dstep^[n] st).event.raw_event = st.event.raw_event ∧
      (dstep^[n] st).event.from_ = st.event.from_ := by
  have h1 : ∀ (ops : List payload_op) (e : Event) (s : Bool),
      (apply_ops ops (e, s)).1 = e := by
    intro ops
    induction ops with
    | nil => intro e s; rfl
    | cons op rest ih =>
      intro e s
      have h2 : apply_ops (op :: rest) (e, s) =
          apply_ops rest (apply_op op (e, s)) := rfl
      rw [h2]
      cases op <;> exact ih e _
  refine ⟨?_, ?_, ?_, ?_⟩
  · rw [h1]
  · rw [h1]
  · rw [dstep_iterate_event]
  · rw [dstep_iterate_event]

end DPP
